import Mathlib

/-!
Shallow embedding of `my_model_selectors.py` (HMM model-selection strategies
for sign-language recognition).

Conventions of the embedding:
* A feature frame is a `List ℚ`; a concatenated observation matrix (`self.X`)
  is a `List (List ℚ)`; segment lengths (`self.lengths`) are a `List ℕ`.
  Floating-point numbers are modelled by rationals.
* The external collaborators (the `hmmlearn` fitting procedure, model
  scoring, `numpy.log`, `numpy.mean`, and the `sklearn` `KFold` splitter) are
  out of scope per the source's imports; they are modelled as an explicit
  environment `Env` of black-box functions.  A fit or score that raises in
  Python is a `none` here; the fixed `random_state`, `n_iter` and
  `covariance_type` arguments of `GaussianHMM` are constants absorbed into
  `Env.fit`.
* Python `try ... except: pass` around a candidate's evaluation becomes an
  `Option`-valued candidate evaluator; `none` means "this candidate raised
  and was skipped".  Division is `pydiv`, which fails (raises) on a zero
  denominator, as in Python.
* `SelectorCV.select` mutates `self.X`/`self.lengths` per fold; the embedding
  threads that pair as explicit state and returns the final state next to the
  selected model.
-/

/-- A concatenated observation matrix: one row per frame. -/
abbrev XType : Type := List (List ℚ)

/-- One observation sequence (one utterance): an ordered list of frames. -/
abbrev ObsSeq : Type := List (List ℚ)

/-- Modelled from the spec: the sequence-concatenation helper
`combine_sequences` from `asl_utils` (a module of this repository that is not
under `src/`): given a subset of per-utterance sequences chosen by index, it
returns a single concatenated feature matrix plus the segment lengths. -/
def combine_sequences (split_index_list : List ℕ) (sequences : List ObsSeq) :
    XType × List ℕ :=
  ((split_index_list.map (fun i => sequences.getD i [])).flatten,
   split_index_list.map (fun i => (sequences.getD i []).length))

/-- Python division: raises (here: `none`) on a zero denominator. -/
def pydiv (a b : ℚ) : Option ℚ :=
  if b = 0 then none else some (a / b)

/-- `numpy.mean` on a list of scores, as used on the (always nonempty in the
reachable paths) per-fold log-likelihood list. -/
def pymean (xs : List ℚ) : ℚ :=
  xs.sum / (xs.length : ℚ)

/-- The external collaborators of the selection layer, as black boxes:
`fit n X lengths` is `GaussianHMM(n_components=n, ...).fit(X, lengths)`
(`none` when fitting raises), `score m X lengths` is `m.score(X, lengths)`
(`none` when scoring raises), `nComponents`/`nFeatures` read the model's
`n_components`/`n_features` attributes, `log` is `numpy.log` on a natural
number argument, and `split` is `KFold().split` on the sequence list,
returning (train indices, test indices) pairs. -/
structure Env (Model : Type) where
  fit : ℕ → XType → List ℕ → Option Model
  score : Model → XType → List ℕ → Option ℚ
  nComponents : Model → ℕ
  nFeatures : Model → ℕ
  log : ℕ → ℚ
  split : List ObsSeq → List (List ℕ × List ℕ)

/-- The state set up by `ModelSelector.__init__`: the two corpus views, the
target word's own sequences and flattened data, and the configuration.
Vocabulary keys are modelled as naturals; `verbose` (logging only) and
`random_state` (absorbed into `Env.fit`) are dropped. -/
structure ModelSelector where
  words : List (ℕ × List ObsSeq)
  hwords : List (ℕ × (XType × List ℕ))
  sequences : List ObsSeq
  X : XType
  lengths : List ℕ
  this_word : ℕ
  n_constant : ℕ
  min_n_components : ℕ
  max_n_components : ℕ

/-- `ModelSelector.__init__`: looks the target word up in both corpus views
(a missing key raises, hence `Option`). -/
def ModelSelector.init (all_word_sequences : List (ℕ × List ObsSeq))
    (all_word_Xlengths : List (ℕ × (XType × List ℕ))) (this_word : ℕ)
    (n_constant min_n_components max_n_components : ℕ) :
    Option ModelSelector :=
  match all_word_sequences.lookup this_word,
    all_word_Xlengths.lookup this_word with
  | some seqs, some xl =>
    some { words := all_word_sequences
           hwords := all_word_Xlengths
           sequences := seqs
           X := xl.1
           lengths := xl.2
           this_word := this_word
           n_constant := n_constant
           min_n_components := min_n_components
           max_n_components := max_n_components }
  | _, _ => none

/-- `ModelSelector.base_model(num_states)`: fits a `GaussianHMM` on the
selector's *current* `self.X`/`self.lengths` (passed explicitly because
`SelectorCV` rebinds them per fold), returning `none` when fitting raises. -/
def ModelSelector.base_model {Model : Type} (env : Env Model) (X : XType)
    (lengths : List ℕ) (num_states : ℕ) : Option Model :=
  env.fit num_states X lengths

/-- Python `range(a, b)`. -/
def pyrange (a b : ℕ) : List ℕ :=
  List.range' a (b - a)

/-- The replacement test of the running best: `best = (model, score)` is
replaced by a new candidate exactly when `replaces best.2 newScore` holds.
`none` stands for the initial `(None, ±inf)` pair, which every successful
candidate replaces. -/
def updBest {Model : Type} (replaces : ℚ → ℚ → Bool)
    (best cur : Option (Model × ℚ)) : Option (Model × ℚ) :=
  match cur with
  | none => best
  | some (m, sc) =>
    match best with
    | none => some (m, sc)
    | some (bm, bs) => if replaces bs sc then some (m, sc) else some (bm, bs)

/-- The shared search loop: fold the candidate evaluations over the state
counts, keeping the running best under the given replacement test; a `none`
evaluation (a raised-and-caught candidate) leaves the best unchanged. -/
def searchFold {Model : Type} (replaces : ℚ → ℚ → Bool)
    (eval : ℕ → Option (Model × ℚ)) (ns : List ℕ)
    (b0 : Option (Model × ℚ)) : Option (Model × ℚ) :=
  ns.foldl (fun b n => updBest replaces b (eval n)) b0

/-- `if best_model[1] > score:` — replace when the new score is strictly
smaller (BIC minimization). -/
def minReplaces (bs sc : ℚ) : Bool := decide (sc < bs)

/-- `if best_model[1] < score:` (DIC) and `max(best_model, curr, key=x[1])`
(CV) — replace when the new score is strictly larger. -/
def maxReplaces (bs sc : ℚ) : Bool := decide (bs < sc)

/-- `SelectorConstant.select`: one call to `base_model` with `n_constant`. -/
def SelectorConstant.select {Model : Type} (env : Env Model)
    (s : ModelSelector) : Option Model :=
  ModelSelector.base_model env s.X s.lengths s.n_constant

/-- The state counts `SelectorBIC.select` iterates over:
`range(self.min_n_components, self.max_n_components)`. -/
def SelectorBIC.candidates (minN maxN : ℕ) : List ℕ :=
  pyrange minN maxN

/-- One iteration of the `SelectorBIC.select` loop body inside its
`try`: fit, score on the word's own data, and compute
`-2 * logL + p * logN` with `p = n**2 + 2*n*n_features - 1` and
`logN = np.log(len(self.lengths))`; `none` when any step raises. -/
def SelectorBIC.evalCandidate {Model : Type} (env : Env Model)
    (s : ModelSelector) (n : ℕ) : Option (Model × ℚ) :=
  match ModelSelector.base_model env s.X s.lengths n with
  | none => none
  | some m =>
    match env.score m s.X s.lengths with
    | none => none
    | some logL =>
      some (m, -2 * logL +
        (((n : ℤ) ^ 2 + 2 * (n : ℤ) * (env.nFeatures m : ℤ) - 1 : ℤ) : ℚ) *
          env.log s.lengths.length)

/-- `SelectorBIC.select`: minimize BIC over the candidates, first-wins on
ties, returning `best_model[0]`. -/
def SelectorBIC.select {Model : Type} (env : Env Model)
    (s : ModelSelector) : Option Model :=
  (searchFold minReplaces (SelectorBIC.evalCandidate env s)
    (SelectorBIC.candidates s.min_n_components s.max_n_components)
    none).map Prod.fst

/-- The state counts `SelectorDIC.select` iterates over:
`range(self.min_n_components, self.max_n_components)`. -/
def SelectorDIC.candidates (minN maxN : ℕ) : List ℕ :=
  pyrange minN maxN

/-- `sum([hmm_model.score(*self.hwords[w]) for w in self.words.keys()])`:
scores the candidate on every vocabulary item of the corpus (the target
included); a missing `hwords` key or a raising score fails the whole sum. -/
def SelectorDIC.scoreSum {Model : Type} (env : Env Model) (m : Model)
    (s : ModelSelector) : Option ℚ := do
  let xs ← (s.words.map Prod.fst).mapM (fun w => do
    let xl ← s.hwords.lookup w
    env.score m xl.1 xl.2)
  pure xs.sum

/-- One iteration of the `SelectorDIC.select` loop body inside its `try`:
fit, read `M = len(self.words.keys())`, score the word itself, sum the
scores over the whole corpus, and compute
`logL - (1 / (M - 1)) * (log_sum - logL)`; the division raises when
`M = 1`, and any raise yields `none`. -/
def SelectorDIC.evalCandidate {Model : Type} (env : Env Model)
    (s : ModelSelector) (n : ℕ) : Option (Model × ℚ) :=
  match ModelSelector.base_model env s.X s.lengths n with
  | none => none
  | some m =>
    match env.score m s.X s.lengths with
    | none => none
    | some logL =>
      match SelectorDIC.scoreSum env m s with
      | none => none
      | some logSum =>
        match pydiv 1 ((s.words.length : ℚ) - 1) with
        | none => none
        | some q => some (m, logL - q * (logSum - logL))

/-- `SelectorDIC.select`: maximize DIC over the candidates, first-wins on
ties, returning `best_model[0]`. -/
def SelectorDIC.select {Model : Type} (env : Env Model)
    (s : ModelSelector) : Option Model :=
  (searchFold maxReplaces (SelectorDIC.evalCandidate env s)
    (SelectorDIC.candidates s.min_n_components s.max_n_components)
    none).map Prod.fst

/-- The state counts `SelectorCV.select` iterates over:
`range(self.min_n_components, self.max_n_components + 1)`. -/
def SelectorCV.candidates (minN maxN : ℕ) : List ℕ :=
  pyrange minN (maxN + 1)

/-- The `for i_train, i_test in kf.split(self.sequences):` loop of
`SelectorCV.select` for one candidate `n`.  Each iteration first rebinds
`self.X, self.lengths` to the train-fold concatenation (so the rebinding
survives a later raise), fits on it and scores the held-out test
concatenation.  The arguments thread the current `(self.X, self.lengths)`
state, the collected fold scores and the last fitted model; a run off the
end with no model bound (`kf.split` yielded nothing) is the `NameError` on
`hmm_model` and fails. -/
def SelectorCV.foldLoop {Model : Type} (env : Env Model)
    (sequences : List ObsSeq) (n : ℕ) :
    List (List ℕ × List ℕ) → XType × List ℕ → List ℚ → Option Model →
      (XType × List ℕ) × Option (Model × List ℚ)
  | [], st, scores, some m => (st, some (m, scores))
  | [], st, _, none => (st, none)
  | (i_train, i_test) :: rest, _, scores, _ =>
    let st := combine_sequences i_train sequences
    let testXl := combine_sequences i_test sequences
    match ModelSelector.base_model env st.1 st.2 n with
    | none => (st, none)
    | some m =>
      match env.score m testXl.1 testXl.2 with
      | none => (st, none)
      | some l => SelectorCV.foldLoop env sequences n rest st
        (scores ++ [l]) (some m)

/-- The no-fold branch of the `SelectorCV.select` loop body (item with at
most 2 sequences): fit on the current full data and score that same data
against itself. -/
def SelectorCV.singleEval {Model : Type} (env : Env Model) (X : XType)
    (lengths : List ℕ) (n : ℕ) : Option (Model × ℚ) :=
  match ModelSelector.base_model env X lengths n with
  | none => none
  | some m =>
    match env.score m X lengths with
    | none => none
    | some sc => some (m, sc)

/-- One iteration of the `SelectorCV.select` loop body inside its `try`,
for candidate `n`: the fold-based path when the item has more than 2
sequences (the candidate's score is the mean of the fold scores and its
model is the one fitted on the last fold), the self-scoring path otherwise.
Returns the new `(self.X, self.lengths)` state next to the candidate's
`(model, score)` (or `none` when the body raised). -/
def SelectorCV.evalCandidate {Model : Type} (env : Env Model)
    (sequences : List ObsSeq) (st : XType × List ℕ) (n : ℕ) :
    (XType × List ℕ) × Option (Model × ℚ) :=
  if 2 < sequences.length then
    match SelectorCV.foldLoop env sequences n (env.split sequences) st []
      none with
    | (st2, some (m, scores)) => (st2, some (m, pymean scores))
    | (st2, none) => (st2, none)
  else
    (st, SelectorCV.singleEval env st.1 st.2 n)

/-- One full iteration of the `SelectorCV.select` loop:
`best_model = max(best_model, curr, key=lambda x: x[1])` over the candidate
evaluation, threading the `(self.X, self.lengths)` state. -/
def SelectorCV.step {Model : Type} (env : Env Model) (sequences : List ObsSeq)
    (acc : (XType × List ℕ) × Option (Model × ℚ)) (n : ℕ) :
    (XType × List ℕ) × Option (Model × ℚ) :=
  let r := SelectorCV.evalCandidate env sequences acc.1 n
  (r.1, updBest maxReplaces acc.2 r.2)

/-- `SelectorCV.select`: iterate the candidates from the initial
`(self.X, self.lengths)` state, return `best_model[0]` together with the
final state of the `self.X`/`self.lengths` fields (which the method never
restores). -/
def SelectorCV.select {Model : Type} (env : Env Model) (s : ModelSelector) :
    Option Model × (XType × List ℕ) :=
  let r := (SelectorCV.candidates s.min_n_components
    s.max_n_components).foldl (SelectorCV.step env s.sequences)
    ((s.X, s.lengths), none)
  ((r.2).map Prod.fst, r.1)

/-! ### Basic lemmas about the search fold -/

theorem mem_pyrange {n a b : ℕ} : n ∈ pyrange a b ↔ a ≤ n ∧ n < b := by
  unfold pyrange
  rw [List.mem_range'_1]
  omega

theorem pyrange_split {a b c : ℕ} (h1 : a ≤ c) (h2 : c < b) :
    pyrange a b = pyrange a c ++ c :: pyrange (c + 1) b := by
  unfold pyrange
  have h3 : b - c = (b - (c + 1)) + 1 := by omega
  have h4 : c :: List.range' (c + 1) (b - (c + 1)) = List.range' c (b - c) := by
    rw [h3, List.range'_succ]
  rw [h4]
  have h5 := List.range'_append_1 a (c - a) (b - c)
  have h6 : a + (c - a) = c := by omega
  have h7 : b - c + (c - a) = b - a := by omega
  rw [h6, h7] at h5
  exact h5.symm

theorem updBest_none_right {Model : Type} (r : ℚ → ℚ → Bool)
    (b : Option (Model × ℚ)) : updBest r b none = b := rfl

theorem updBest_origin {Model : Type} (r : ℚ → ℚ → Bool)
    (b0 cur : Option (Model × ℚ)) (p : Model × ℚ)
    (h : updBest r b0 cur = some p) : b0 = some p ∨ cur = some p := by
  cases cur with
  | none => exact Or.inl h
  | some q =>
    obtain ⟨qm, qsc⟩ := q
    cases b0 with
    | none => exact Or.inr h
    | some b =>
      obtain ⟨bm, bs⟩ := b
      by_cases hr : r bs qsc
      · right
        simpa [updBest, hr] using h
      · left
        simpa [updBest, hr] using h

theorem searchFold_cons {Model : Type} (r : ℚ → ℚ → Bool)
    (e : ℕ → Option (Model × ℚ)) (n : ℕ) (ns : List ℕ)
    (b0 : Option (Model × ℚ)) :
    searchFold r e (n :: ns) b0 = searchFold r e ns (updBest r b0 (e n)) :=
  rfl

theorem searchFold_of_none {Model : Type} (r : ℚ → ℚ → Bool)
    (e : ℕ → Option (Model × ℚ)) :
    ∀ (ns : List ℕ) (b0 : Option (Model × ℚ)),
      (∀ n ∈ ns, e n = none) → searchFold r e ns b0 = b0
  | [], _, _ => rfl
  | n :: ns, b0, h => by
    rw [searchFold_cons, h n (List.mem_cons_self n ns), updBest_none_right]
    exact searchFold_of_none r e ns b0 fun x hx =>
      h x (List.mem_cons_of_mem n hx)

theorem searchFold_keep {Model : Type} (r : ℚ → ℚ → Bool)
    (e : ℕ → Option (Model × ℚ)) (m : Model) (c : ℚ) :
    ∀ ns : List ℕ,
      (∀ n ∈ ns, ∀ p : Model × ℚ, e n = some p → r c p.2 = false) →
        searchFold r e ns (some (m, c)) = some (m, c)
  | [], _ => rfl
  | n :: ns, h => by
    rw [searchFold_cons]
    have hb : updBest r (some (m, c)) (e n) = some (m, c) := by
      cases he : e n with
      | none => rfl
      | some p =>
        obtain ⟨pm, psc⟩ := p
        have hf := h n (List.mem_cons_self n ns) (pm, psc) he
        simp [updBest, hf]
    rw [hb]
    exact searchFold_keep r e m c ns fun x hx =>
      h x (List.mem_cons_of_mem n hx)

theorem searchFold_origin {Model : Type} (r : ℚ → ℚ → Bool)
    (e : ℕ → Option (Model × ℚ)) :
    ∀ (ns : List ℕ) (b0 : Option (Model × ℚ)) (p : Model × ℚ),
      searchFold r e ns b0 = some p →
        b0 = some p ∨ ∃ n ∈ ns, e n = some p
  | [], _, _, h => Or.inl h
  | n :: ns, b0, p, h => by
    rw [searchFold_cons] at h
    rcases searchFold_origin r e ns (updBest r b0 (e n)) p h with h1 | ⟨n2, hn2, he2⟩
    · rcases updBest_origin r b0 (e n) p h1 with h2 | h2
      · exact Or.inl h2
      · exact Or.inr ⟨n, List.mem_cons_self n ns, h2⟩
    · exact Or.inr ⟨n2, List.mem_cons_of_mem n hn2, he2⟩

theorem searchFold_best {Model : Type} (r : ℚ → ℚ → Bool) (G : ℚ → ℚ → Prop)
    (hrefl : ∀ a, G a a) (htrans : ∀ a b c, G a b → G b c → G a c)
    (hfalse : ∀ a b, r a b = false → G a b)
    (htrue : ∀ a b, r a b = true → G b a)
    (e : ℕ → Option (Model × ℚ)) :
    ∀ (ns : List ℕ) (b0 : Option (Model × ℚ)) (m : Model) (sc : ℚ),
      searchFold r e ns b0 = some (m, sc) →
        (∀ p : Model × ℚ, b0 = some p → G sc p.2) ∧
        (∀ n ∈ ns, ∀ p : Model × ℚ, e n = some p → G sc p.2)
  | [], b0, m, sc, h => by
    refine ⟨fun p hp => ?_, fun n hn => absurd hn (List.not_mem_nil n)⟩
    rw [searchFold] at h
    simp only [List.foldl_nil] at h
    rw [hp] at h
    obtain rfl : p = (m, sc) := Option.some.inj h
    exact hrefl sc
  | n :: ns, b0, m, sc, h => by
    rw [searchFold_cons] at h
    obtain ⟨ih1, ih2⟩ :=
      searchFold_best r G hrefl htrans hfalse htrue e ns
        (updBest r b0 (e n)) m sc h
    constructor
    · intro p hp
      obtain ⟨pm, ps⟩ := p
      cases he : e n with
      | none =>
        exact ih1 (pm, ps) (by rw [← hp, he, updBest_none_right])
      | some q =>
        obtain ⟨qm, qs⟩ := q
        by_cases hr : r ps qs
        · have hq : G sc qs := ih1 (qm, qs) (by rw [hp, he]; simp [updBest, hr])
          exact htrans sc qs ps hq (htrue ps qs hr)
        · exact ih1 (pm, ps) (by rw [hp, he]; simp [updBest, hr])
    · intro n2 hn2 p hp
      rcases List.mem_cons.mp hn2 with rfl | hmem
      · obtain ⟨qm, qs⟩ := p
        cases hb : b0 with
        | none => exact ih1 (qm, qs) (by rw [hp, hb]; rfl)
        | some b =>
          obtain ⟨bm, bs⟩ := b
          by_cases hr : r bs qs
          · exact ih1 (qm, qs) (by rw [hp, hb]; simp [updBest, hr])
          · have hbG : G sc bs := ih1 (bm, bs) (by rw [hp, hb]; simp [updBest, hr])
            exact htrans sc bs qs hbG (hfalse bs qs (Bool.eq_false_iff.mpr hr))
      · exact ih2 n2 hmem p hp

theorem searchFold_min {Model : Type} (e : ℕ → Option (Model × ℚ))
    (ns : List ℕ) (m : Model) (sc : ℚ)
    (h : searchFold minReplaces e ns none = some (m, sc)) :
    (∃ n ∈ ns, e n = some (m, sc)) ∧
      ∀ n ∈ ns, ∀ p : Model × ℚ, e n = some p → sc ≤ p.2 := by
  constructor
  · rcases searchFold_origin minReplaces e ns none (m, sc) h with h1 | h1
    · exact absurd h1 (Option.noConfusion)
    · exact h1
  · exact (searchFold_best minReplaces (· ≤ ·) (fun a => le_refl a)
      (fun a b c => le_trans)
      (fun a b hf => le_of_not_lt (by simpa [minReplaces] using hf))
      (fun a b ht => le_of_lt (by simpa [minReplaces] using ht))
      e ns none m sc h).2

theorem searchFold_max {Model : Type} (e : ℕ → Option (Model × ℚ))
    (ns : List ℕ) (m : Model) (sc : ℚ)
    (h : searchFold maxReplaces e ns none = some (m, sc)) :
    (∃ n ∈ ns, e n = some (m, sc)) ∧
      ∀ n ∈ ns, ∀ p : Model × ℚ, e n = some p → p.2 ≤ sc := by
  constructor
  · rcases searchFold_origin maxReplaces e ns none (m, sc) h with h1 | h1
    · exact absurd h1 (Option.noConfusion)
    · exact h1
  · exact (searchFold_best maxReplaces (fun a b => b ≤ a) (fun a => le_refl a)
      (fun a b c hab hbc => le_trans hbc hab)
      (fun a b hf => le_of_not_lt (by simpa [maxReplaces] using hf))
      (fun a b ht => le_of_lt (by simpa [maxReplaces] using ht))
      e ns none m sc h).2

/-! ### Lemmas about the cross-validation loop -/

theorem foldLoop_snd_indep {Model : Type} (env : Env Model)
    (seqs : List ObsSeq) (n : ℕ) (folds : List (List ℕ × List ℕ))
    (scores : List ℚ) (mo : Option Model) (st st2 : XType × List ℕ) :
    (SelectorCV.foldLoop env seqs n folds st scores mo).2 =
      (SelectorCV.foldLoop env seqs n folds st2 scores mo).2 := by
  cases folds with
  | nil => cases mo <;> rfl
  | cons f rest =>
    obtain ⟨itr, ite⟩ := f
    rfl

theorem evalCandidate_snd_of_gt {Model : Type} (env : Env Model)
    (seqs : List ObsSeq) (h : 2 < seqs.length) (st : XType × List ℕ)
    (n : ℕ) :
    (SelectorCV.evalCandidate env seqs st n).2 =
      ((SelectorCV.foldLoop env seqs n (env.split seqs) st [] none).2).map
        (fun p => (p.1, pymean p.2)) := by
  unfold SelectorCV.evalCandidate
  rw [if_pos h]
  rcases hfl : SelectorCV.foldLoop env seqs n (env.split seqs) st [] none
    with ⟨st2, r⟩
  cases r with
  | none => simp
  | some p =>
    obtain ⟨m, scores⟩ := p
    simp

theorem evalCandidate_fst_of_gt {Model : Type} (env : Env Model)
    (seqs : List ObsSeq) (h : 2 < seqs.length) (st : XType × List ℕ)
    (n : ℕ) :
    (SelectorCV.evalCandidate env seqs st n).1 =
      (SelectorCV.foldLoop env seqs n (env.split seqs) st [] none).1 := by
  unfold SelectorCV.evalCandidate
  rw [if_pos h]
  rcases hfl : SelectorCV.foldLoop env seqs n (env.split seqs) st [] none
    with ⟨st2, r⟩
  cases r with
  | none => simp
  | some p =>
    obtain ⟨m, scores⟩ := p
    simp

theorem evalCandidate_of_le {Model : Type} (env : Env Model)
    (seqs : List ObsSeq) (h : ¬2 < seqs.length) (st : XType × List ℕ)
    (n : ℕ) :
    SelectorCV.evalCandidate env seqs st n =
      (st, SelectorCV.singleEval env st.1 st.2 n) := by
  unfold SelectorCV.evalCandidate
  rw [if_neg h]

theorem evalCandidate_snd_indep {Model : Type} (env : Env Model)
    (seqs : List ObsSeq) (h : 2 < seqs.length) (st st2 : XType × List ℕ)
    (n : ℕ) :
    (SelectorCV.evalCandidate env seqs st n).2 =
      (SelectorCV.evalCandidate env seqs st2 n).2 := by
  rw [evalCandidate_snd_of_gt env seqs h st n,
    evalCandidate_snd_of_gt env seqs h st2 n,
    foldLoop_snd_indep env seqs n (env.split seqs) [] none st st2]

theorem cv_foldl_snd_pinned {Model : Type} (env : Env Model)
    (seqs : List ObsSeq) (v : ℕ → Option (Model × ℚ)) :
    ∀ (ns : List ℕ) (st0 : XType × List ℕ) (b0 : Option (Model × ℚ)),
      (∀ n ∈ ns, ∀ st : XType × List ℕ,
        (SelectorCV.evalCandidate env seqs st n).2 = v n) →
      (ns.foldl (SelectorCV.step env seqs) (st0, b0)).2 =
        searchFold maxReplaces v ns b0
  | [], _, _, _ => rfl
  | n :: ns, st0, b0, h => by
    rw [List.foldl_cons, searchFold_cons]
    have hstep : SelectorCV.step env seqs (st0, b0) n =
        ((SelectorCV.evalCandidate env seqs st0 n).1,
          updBest maxReplaces b0 (v n)) := by
      show ((SelectorCV.evalCandidate env seqs st0 n).1,
          updBest maxReplaces b0 (SelectorCV.evalCandidate env seqs st0 n).2) =
        ((SelectorCV.evalCandidate env seqs st0 n).1,
          updBest maxReplaces b0 (v n))
      rw [h n (List.mem_cons_self n ns) st0]
    rw [hstep]
    exact cv_foldl_snd_pinned env seqs v ns _ _ fun x hx =>
      h x (List.mem_cons_of_mem n hx)

theorem cv_foldl_origin {Model : Type} (env : Env Model)
    (seqs : List ObsSeq) :
    ∀ (ns : List ℕ) (st0 : XType × List ℕ) (b0 : Option (Model × ℚ))
      (p : Model × ℚ),
      (ns.foldl (SelectorCV.step env seqs) (st0, b0)).2 = some p →
        b0 = some p ∨ ∃ n ∈ ns, ∃ st : XType × List ℕ,
          (SelectorCV.evalCandidate env seqs st n).2 = some p
  | [], _, _, _, h => Or.inl h
  | n :: ns, st0, b0, p, h => by
    rw [List.foldl_cons] at h
    rcases cv_foldl_origin env seqs ns
      (SelectorCV.step env seqs (st0, b0) n).1
      (SelectorCV.step env seqs (st0, b0) n).2 p (by
        convert h using 2) with h1 | ⟨n2, hn2, st2, he2⟩
    · rcases updBest_origin maxReplaces b0
        (SelectorCV.evalCandidate env seqs st0 n).2 p h1 with h2 | h2
      · exact Or.inl h2
      · exact Or.inr ⟨n, List.mem_cons_self n ns, st0, h2⟩
    · exact Or.inr ⟨n2, List.mem_cons_of_mem n hn2, st2, he2⟩

theorem foldLoop_model_origin {Model : Type} (env : Env Model)
    (seqs : List ObsSeq) (n : ℕ) :
    ∀ (folds : List (List ℕ × List ℕ)) (st : XType × List ℕ)
      (scores : List ℚ) (mo : Option Model) (m : Model) (scs : List ℚ),
      (SelectorCV.foldLoop env seqs n folds st scores mo).2 =
        some (m, scs) →
        mo = some m ∨ ∃ (X : XType) (l : List ℕ), env.fit n X l = some m
  | [], st, scores, mo, m, scs, h => by
    cases mo with
    | none => exact absurd h (Option.noConfusion)
    | some m0 =>
      obtain rfl : m0 = m := by
        have : (some (m0, scores) : Option (Model × List ℚ)) =
            some (m, scs) := h
        exact congrArg Prod.fst (Option.some.inj this)
      exact Or.inl rfl
  | (itr, ite) :: rest, st, scores, mo, m, scs, h => by
    rw [SelectorCV.foldLoop] at h
    split at h
    next heq => exact absurd h (Option.noConfusion)
    next m1 heq =>
      split at h
      next heq2 => exact absurd h (Option.noConfusion)
      next l heq2 =>
        rcases foldLoop_model_origin env seqs n rest _ _ _ m scs h
          with h1 | h1
        · obtain rfl : m1 = m := Option.some.inj h1
          exact Or.inr ⟨(combine_sequences itr seqs).1,
            (combine_sequences itr seqs).2, heq⟩
        · exact Or.inr h1

theorem evalCandidate_model_origin {Model : Type} (env : Env Model)
    (seqs : List ObsSeq) (st : XType × List ℕ) (n : ℕ) (m : Model) (sc : ℚ)
    (h : (SelectorCV.evalCandidate env seqs st n).2 = some (m, sc)) :
    ∃ (X : XType) (l : List ℕ), env.fit n X l = some m := by
  by_cases h2 : 2 < seqs.length
  · rw [evalCandidate_snd_of_gt env seqs h2 st n] at h
    rcases Option.map_eq_some'.mp h with ⟨p, hp, hpe⟩
    obtain ⟨pm, pscs⟩ := p
    have hpm : pm = m := congrArg Prod.fst hpe
    subst hpm
    rcases foldLoop_model_origin env seqs n (env.split seqs) st [] none pm
      pscs hp with h1 | h1
    · exact absurd h1 (Option.noConfusion)
    · exact h1
  · rw [evalCandidate_of_le env seqs h2 st n] at h
    have h3 : SelectorCV.singleEval env st.1 st.2 n = some (m, sc) := h
    unfold SelectorCV.singleEval at h3
    split at h3
    next heq => exact absurd h3 (Option.noConfusion)
    next m1 heq =>
      split at h3
      next heq2 => exact absurd h3 (Option.noConfusion)
      next l heq2 =>
        obtain rfl : m1 = m := congrArg Prod.fst (Option.some.inj h3)
        exact ⟨st.1, st.2, heq⟩

theorem cv_foldl_of_le {Model : Type} (env : Env Model) (seqs : List ObsSeq)
    (h : ¬2 < seqs.length) :
    ∀ (ns : List ℕ) (st0 : XType × List ℕ) (b0 : Option (Model × ℚ)),
      ns.foldl (SelectorCV.step env seqs) (st0, b0) =
        (st0, searchFold maxReplaces
          (fun n => SelectorCV.singleEval env st0.1 st0.2 n) ns b0)
  | [], _, _ => rfl
  | n :: ns, st0, b0 => by
    rw [List.foldl_cons, searchFold_cons]
    have hstep : SelectorCV.step env seqs (st0, b0) n =
        (st0, updBest maxReplaces b0
          (SelectorCV.singleEval env st0.1 st0.2 n)) := by
      show ((SelectorCV.evalCandidate env seqs st0 n).1,
          updBest maxReplaces b0 (SelectorCV.evalCandidate env seqs st0 n).2) =
        (st0, updBest maxReplaces b0 (SelectorCV.singleEval env st0.1 st0.2 n))
      rw [evalCandidate_of_le env seqs h st0 n]
    rw [hstep]
    exact cv_foldl_of_le env seqs h ns st0 _

theorem foldLoop_fst_mem {Model : Type} (env : Env Model) (seqs : List ObsSeq)
    (n : ℕ) :
    ∀ (folds : List (List ℕ × List ℕ)) (st : XType × List ℕ)
      (scores : List ℚ) (mo : Option Model),
      (SelectorCV.foldLoop env seqs n folds st scores mo).1 = st ∨
        ∃ f ∈ folds, (SelectorCV.foldLoop env seqs n folds st scores mo).1 =
          combine_sequences f.1 seqs
  | [], st, scores, mo => by cases mo <;> exact Or.inl rfl
  | (itr, ite) :: rest, st, scores, mo => by
    rw [SelectorCV.foldLoop]
    split
    next heq =>
      exact Or.inr ⟨(itr, ite), List.mem_cons_self _ _, rfl⟩
    next m heq =>
      split
      next heq2 =>
        exact Or.inr ⟨(itr, ite), List.mem_cons_self _ _, rfl⟩
      next l heq2 =>
        rcases foldLoop_fst_mem env seqs n rest
          (combine_sequences itr seqs) (scores ++ [l]) (some m)
          with h1 | ⟨f, hf, he⟩
        · exact Or.inr ⟨(itr, ite), List.mem_cons_self _ _, h1⟩
        · exact Or.inr ⟨f, List.mem_cons_of_mem _ hf, he⟩

theorem foldLoop_fst_success {Model : Type} (env : Env Model)
    (seqs : List ObsSeq) (n : ℕ)
    (hfit : ∀ (k : ℕ) (X : XType) (l : List ℕ), env.fit k X l ≠ none)
    (hscore : ∀ (m : Model) (X : XType) (l : List ℕ), env.score m X l ≠ none) :
    ∀ (folds : List (List ℕ × List ℕ)) (st : XType × List ℕ)
      (scores : List ℚ) (mo : Option Model) (hne : folds ≠ []),
      (SelectorCV.foldLoop env seqs n folds st scores mo).1 =
        combine_sequences (folds.getLast hne).1 seqs
  | [], _, _, _, hne => absurd rfl hne
  | (itr, ite) :: rest, st, scores, mo, hne => by
    rw [SelectorCV.foldLoop]
    split
    next heq => exact absurd heq (hfit n _ _)
    next m heq =>
      split
      next heq2 => exact absurd heq2 (hscore m _ _)
      next l heq2 =>
        cases rest with
        | nil => simp [SelectorCV.foldLoop]
        | cons g grest =>
          rw [List.getLast_cons (List.cons_ne_nil g grest)]
          exact foldLoop_fst_success env seqs n hfit hscore (g :: grest) _ _ _
            (List.cons_ne_nil g grest)

theorem evalCandidate_fst_mem {Model : Type} (env : Env Model)
    (seqs : List ObsSeq) (h2 : 2 < seqs.length) (st : XType × List ℕ)
    (n : ℕ) :
    (SelectorCV.evalCandidate env seqs st n).1 = st ∨
      ∃ f ∈ env.split seqs, (SelectorCV.evalCandidate env seqs st n).1 =
        combine_sequences f.1 seqs := by
  rw [evalCandidate_fst_of_gt env seqs h2 st n]
  exact foldLoop_fst_mem env seqs n (env.split seqs) st [] none

theorem cv_foldl_fst_mem {Model : Type} (env : Env Model) (seqs : List ObsSeq)
    (h2 : 2 < seqs.length) :
    ∀ (ns : List ℕ) (st0 : XType × List ℕ) (b0 : Option (Model × ℚ)),
      (ns.foldl (SelectorCV.step env seqs) (st0, b0)).1 = st0 ∨
        ∃ f ∈ env.split seqs,
          (ns.foldl (SelectorCV.step env seqs) (st0, b0)).1 =
            combine_sequences f.1 seqs
  | [], _, _ => Or.inl rfl
  | n :: ns, st0, b0 => by
    rw [List.foldl_cons]
    have hstep : SelectorCV.step env seqs (st0, b0) n =
        ((SelectorCV.evalCandidate env seqs st0 n).1,
          updBest maxReplaces b0 (SelectorCV.evalCandidate env seqs st0 n).2) :=
      rfl
    rw [hstep]
    rcases evalCandidate_fst_mem env seqs h2 st0 n with h1 | ⟨f, hf, he⟩
    · rw [h1]
      exact cv_foldl_fst_mem env seqs h2 ns st0 _
    · rw [he]
      rcases cv_foldl_fst_mem env seqs h2 ns (combine_sequences f.1 seqs) _
        with h3 | ⟨g, hg, hge⟩
      · exact Or.inr ⟨f, hf, h3⟩
      · exact Or.inr ⟨g, hg, hge⟩

theorem cv_foldl_fst_of_const {Model : Type} (env : Env Model)
    (seqs : List ObsSeq) (C : XType × List ℕ)
    (hC : ∀ (st : XType × List ℕ) (n : ℕ),
      (SelectorCV.evalCandidate env seqs st n).1 = C) :
    ∀ (ns : List ℕ) (st0 : XType × List ℕ) (b0 : Option (Model × ℚ)),
      ns ≠ [] → (ns.foldl (SelectorCV.step env seqs) (st0, b0)).1 = C
  | [], _, _, hne => absurd rfl hne
  | n :: ns, st0, b0, _ => by
    rw [List.foldl_cons]
    have hstep : SelectorCV.step env seqs (st0, b0) n =
        (C, updBest maxReplaces b0
          (SelectorCV.evalCandidate env seqs st0 n).2) := by
      show ((SelectorCV.evalCandidate env seqs st0 n).1,
          updBest maxReplaces b0 (SelectorCV.evalCandidate env seqs st0 n).2) =
        (C, updBest maxReplaces b0 (SelectorCV.evalCandidate env seqs st0 n).2)
      rw [hC st0 n]
    rw [hstep]
    cases ns with
    | nil => rfl
    | cons n2 ns2 =>
      exact cv_foldl_fst_of_const env seqs C hC (n2 :: ns2) C _
        (List.cons_ne_nil n2 ns2)

/-! ### Candidate-range and inversion lemmas -/

theorem mem_bic_candidates {n a b : ℕ} :
    n ∈ SelectorBIC.candidates a b ↔ a ≤ n ∧ n < b := by
  unfold SelectorBIC.candidates
  exact mem_pyrange

theorem mem_dic_candidates {n a b : ℕ} :
    n ∈ SelectorDIC.candidates a b ↔ a ≤ n ∧ n < b := by
  unfold SelectorDIC.candidates
  exact mem_pyrange

theorem mem_cv_candidates {n a b : ℕ} :
    n ∈ SelectorCV.candidates a b ↔ a ≤ n ∧ n ≤ b := by
  unfold SelectorCV.candidates
  rw [mem_pyrange]
  omega

theorem searchFold_append {Model : Type} (r : ℚ → ℚ → Bool)
    (e : ℕ → Option (Model × ℚ)) (l1 l2 : List ℕ)
    (b0 : Option (Model × ℚ)) :
    searchFold r e (l1 ++ l2) b0 = searchFold r e l2 (searchFold r e l1 b0) := by
  unfold searchFold
  rw [List.foldl_append]

theorem searchFold_two_tied {Model : Type} (r : ℚ → ℚ → Bool)
    (hr : ∀ a : ℚ, r a a = false) (v : ℕ → Option (Model × ℚ)) (a b n1 n2 : ℕ)
    (m1 m2 : Model) (c : ℚ) (hlo : a ≤ n1) (h12 : n1 < n2) (hhi : n2 < b)
    (hv1 : v n1 = some (m1, c)) (hv2 : v n2 = some (m2, c))
    (hother : ∀ n, a ≤ n → n < b → n ≠ n1 → n ≠ n2 → v n = none) :
    searchFold r v (pyrange a b) none = some (m1, c) := by
  rw [pyrange_split hlo (lt_trans h12 hhi), searchFold_append]
  have h1 : searchFold r v (pyrange a n1) none = none := by
    apply searchFold_of_none
    intro n hn
    have hb := mem_pyrange.mp hn
    exact hother n hb.1 (by omega) (by omega) (by omega)
  rw [h1, searchFold_cons, hv1]
  have h2 : updBest r (none : Option (Model × ℚ)) (some (m1, c)) =
      some (m1, c) := rfl
  rw [h2]
  apply searchFold_keep
  intro n hn p hp
  have hb := mem_pyrange.mp hn
  by_cases e2 : n = n2
  · subst e2
    rw [hv2] at hp
    obtain rfl : (m2, c) = p := Option.some.inj hp
    exact hr c
  · rw [hother n (by omega) hb.2 (by omega) e2] at hp
    exact absurd hp (Option.noConfusion)

theorem bic_eval_fit {Model : Type} (env : Env Model) (s : ModelSelector)
    (n : ℕ) (m : Model) (sc : ℚ)
    (h : SelectorBIC.evalCandidate env s n = some (m, sc)) :
    env.fit n s.X s.lengths = some m := by
  unfold SelectorBIC.evalCandidate at h
  split at h
  next heq => exact absurd h (Option.noConfusion)
  next m1 heq =>
    split at h
    next heq2 => exact absurd h (Option.noConfusion)
    next logL heq2 =>
      obtain rfl : m1 = m := congrArg Prod.fst (Option.some.inj h)
      exact heq

theorem dic_eval_fit {Model : Type} (env : Env Model) (s : ModelSelector)
    (n : ℕ) (m : Model) (sc : ℚ)
    (h : SelectorDIC.evalCandidate env s n = some (m, sc)) :
    env.fit n s.X s.lengths = some m := by
  unfold SelectorDIC.evalCandidate at h
  split at h
  next heq => exact absurd h (Option.noConfusion)
  next m1 heq =>
    split at h
    next heq2 => exact absurd h (Option.noConfusion)
    next logL heq2 =>
      split at h
      next heq3 => exact absurd h (Option.noConfusion)
      next logSum heq3 =>
        split at h
        next heq4 => exact absurd h (Option.noConfusion)
        next q heq4 =>
          obtain rfl : m1 = m := congrArg Prod.fst (Option.some.inj h)
          exact heq

/-! ### Concrete instances used by witnesses and counterexamples -/

/-- A concrete environment over `Model := ℕ` (a model is its own state
count): every fit succeeds and returns the requested state count, every
score is `0`, `log` is identically `0`, and the splitter returns the three
leave-one-out folds of a 3-element index set. -/
def envAll : Env ℕ :=
  { fit := fun n _ _ => some n
    score := fun _ _ _ => some 0
    nComponents := fun m => m
    nFeatures := fun _ => 1
    log := fun _ => 0
    split := fun _ => [([1, 2], [0]), ([0, 2], [1]), ([0, 1], [2])] }

/-- An environment in which every fit fails. -/
def envFailAll : Env ℕ :=
  { fit := fun _ _ _ => none
    score := fun _ _ _ => some 0
    nComponents := fun m => m
    nFeatures := fun _ => 1
    log := fun _ => 0
    split := fun _ => [] }

/-- An environment in which exactly the state counts 3 and 7 are
trainable. -/
def envTwoTrainable : Env ℕ :=
  { fit := fun n _ _ => if n = 3 ∨ n = 7 then some n else none
    score := fun _ _ _ => some 0
    nComponents := fun m => m
    nFeatures := fun _ => 1
    log := fun _ => 0
    split := fun _ => [] }

/-- A two-word corpus, an empty target item, search range `[2, 4]`. -/
def sRange24 : ModelSelector :=
  { words := [(0, []), (1, [])]
    hwords := [(0, ([], [])), (1, ([], []))]
    sequences := []
    X := []
    lengths := []
    this_word := 0
    n_constant := 3
    min_n_components := 2
    max_n_components := 4 }

/-- Like `sRange24` but with the fallback state count 7, outside the
configured search range `[2, 4]`. -/
def sConst7 : ModelSelector :=
  { words := [(0, []), (1, [])]
    hwords := [(0, ([], [])), (1, ([], []))]
    sequences := []
    X := []
    lengths := []
    this_word := 0
    n_constant := 7
    min_n_components := 2
    max_n_components := 4 }

/-- A single-word corpus (`M = 1`). -/
def sOneWord : ModelSelector :=
  { words := [(0, [])]
    hwords := [(0, ([], []))]
    sequences := []
    X := []
    lengths := []
    this_word := 0
    n_constant := 3
    min_n_components := 2
    max_n_components := 10 }

/-- A target item with exactly 2 sequences, search range `[2, 3]`. -/
def sCV2 : ModelSelector :=
  { words := [(0, [[[1]], [[2]]])]
    hwords := [(0, ([[1], [2]], [1, 1]))]
    sequences := [[[1]], [[2]]]
    X := [[1], [2]]
    lengths := [1, 1]
    this_word := 0
    n_constant := 3
    min_n_components := 2
    max_n_components := 3 }

/-- A target item with 3 sequences (fold path), search range `[2, 3]`. -/
def sCV3 : ModelSelector :=
  { words := [(0, [[[1]], [[2]], [[3]]])]
    hwords := [(0, ([[1], [2], [3]], [1, 1, 1]))]
    sequences := [[[1]], [[2]], [[3]]]
    X := [[1], [2], [3]]
    lengths := [1, 1, 1]
    this_word := 0
    n_constant := 3
    min_n_components := 2
    max_n_components := 3 }

/-! ### Claim theorems -/

/-- C4: the BIC and DIC selectors evaluate candidate state counts exactly
over the half-open range `[min_n_components, max_n_components)` while the
Cross-Validated selector evaluates exactly the closed range
`[min_n_components, max_n_components]`; for `min_n = 2, max_n = 4` the
BIC/DIC candidate list is exactly `[2, 3]` and the CV candidate list is
exactly `[2, 3, 4]`. -/
theorem claim_candidate_ranges :
    (∀ a b n : ℕ, n ∈ SelectorBIC.candidates a b ↔ a ≤ n ∧ n < b) ∧
    (∀ a b n : ℕ, n ∈ SelectorDIC.candidates a b ↔ a ≤ n ∧ n < b) ∧
    (∀ a b n : ℕ, n ∈ SelectorCV.candidates a b ↔ a ≤ n ∧ n ≤ b) ∧
    SelectorBIC.candidates 2 4 = [2, 3] ∧
    SelectorDIC.candidates 2 4 = [2, 3] ∧
    SelectorCV.candidates 2 4 = [2, 3, 4] := by
  refine ⟨fun a b n => mem_bic_candidates, fun a b n => mem_dic_candidates,
    fun a b n => mem_cv_candidates, by decide, by decide, by decide⟩

/-- C2: with a single-item corpus (`M = 1`) the DIC selector does not
signal a configuration error: the `ZeroDivisionError` raised by
`1 / (M - 1)` is swallowed by the blanket per-candidate handler, every
candidate is skipped, and `select()` silently returns `None` — there is no
explicit `M ≥ 2` guard.  (The claim says a defined error must be signalled;
the code instead proceeds silently, so this theorem documents the code's
actual behavior at the failing input.) -/
theorem claim_dic_m1_silent_none {Model : Type} (env : Env Model)
    (s : ModelSelector) (h : s.words.length = 1) :
    SelectorDIC.select env s = none := by
  have hev : ∀ n, SelectorDIC.evalCandidate env s n = none := by
    intro n
    unfold SelectorDIC.evalCandidate
    split
    · rfl
    next m heq =>
      split
      · rfl
      next logL heq2 =>
        split
        · rfl
        next logSum heq3 =>
          split
          · rfl
          next q heq4 =>
            rw [h] at heq4
            norm_num [pydiv] at heq4
            exact absurd heq4 (Option.noConfusion)
  unfold SelectorDIC.select
  rw [searchFold_of_none maxReplaces (SelectorDIC.evalCandidate env s)
    (SelectorDIC.candidates s.min_n_components s.max_n_components) none
    (fun n _ => hev n)]
  rfl

/-- Witness for C2: the concrete single-word corpus `sOneWord` under an
environment where every fit and score succeeds still yields `None`. -/
theorem claim_dic_m1_silent_none_witness :
    SelectorDIC.select envAll sOneWord = none :=
  claim_dic_m1_silent_none envAll sOneWord rfl

/-- C8: for each of the four strategies, if every candidate evaluation in
the search range fails (fit or score raises, modelled by a `none`
evaluation), `select()` returns `None` rather than raising; per-candidate
failures are recovered locally, which is expressed by the evaluators being
total `Option`-valued functions folded over the remaining candidates. -/
theorem claim_all_fail_returns_none {Model : Type} (env : Env Model)
    (s : ModelSelector)
    (hc : ModelSelector.base_model env s.X s.lengths s.n_constant = none)
    (hb : ∀ n ∈ SelectorBIC.candidates s.min_n_components s.max_n_components,
      SelectorBIC.evalCandidate env s n = none)
    (hd : ∀ n ∈ SelectorDIC.candidates s.min_n_components s.max_n_components,
      SelectorDIC.evalCandidate env s n = none)
    (hv : ∀ n ∈ SelectorCV.candidates s.min_n_components s.max_n_components,
      ∀ st : XType × List ℕ,
        (SelectorCV.evalCandidate env s.sequences st n).2 = none) :
    SelectorConstant.select env s = none ∧
    SelectorBIC.select env s = none ∧
    SelectorDIC.select env s = none ∧
    (SelectorCV.select env s).1 = none := by
  refine ⟨hc, ?_, ?_, ?_⟩
  · unfold SelectorBIC.select
    rw [searchFold_of_none minReplaces (SelectorBIC.evalCandidate env s)
      (SelectorBIC.candidates s.min_n_components s.max_n_components) none hb]
    rfl
  · unfold SelectorDIC.select
    rw [searchFold_of_none maxReplaces (SelectorDIC.evalCandidate env s)
      (SelectorDIC.candidates s.min_n_components s.max_n_components) none hd]
    rfl
  · have h2 := cv_foldl_snd_pinned env s.sequences (fun _ => none)
      (SelectorCV.candidates s.min_n_components s.max_n_components)
      (s.X, s.lengths) none hv
    show ((SelectorCV.candidates s.min_n_components
        s.max_n_components).foldl (SelectorCV.step env s.sequences)
        ((s.X, s.lengths), none)).2.map Prod.fst = none
    rw [h2, searchFold_of_none maxReplaces (fun _ => none)
      (SelectorCV.candidates s.min_n_components s.max_n_components) none
      (fun _ _ => rfl)]
    rfl

/-- Witness for C8: under `envFailAll` (every fit raises), all four
strategies return `None` on the concrete item `sRange24`. -/
theorem claim_all_fail_returns_none_witness :
    SelectorConstant.select envFailAll sRange24 = none ∧
    SelectorBIC.select envFailAll sRange24 = none ∧
    SelectorDIC.select envFailAll sRange24 = none ∧
    (SelectorCV.select envFailAll sRange24).1 = none :=
  claim_all_fail_returns_none envFailAll sRange24 rfl (fun _ _ => rfl)
    (fun _ _ => rfl) (fun _ _ _ => rfl)

/-- C9: when the target item has two or fewer observation sequences, the
Cross-Validated selector skips fold splitting entirely: every candidate `n`
is evaluated once by fitting on the item's full flattened data and scoring
that same data against itself (`SelectorCV.singleEval`), and the
`self.X`/`self.lengths` state is left untouched. -/
theorem claim_cv_few_sequences_no_folds {Model : Type} (env : Env Model)
    (s : ModelSelector) (h : s.sequences.length ≤ 2) :
    SelectorCV.select env s =
      ((searchFold maxReplaces
          (fun n => SelectorCV.singleEval env s.X s.lengths n)
          (SelectorCV.candidates s.min_n_components s.max_n_components)
          none).map Prod.fst,
        (s.X, s.lengths)) := by
  have h2 : ¬2 < s.sequences.length := by omega
  unfold SelectorCV.select
  rw [cv_foldl_of_le env s.sequences h2
    (SelectorCV.candidates s.min_n_components s.max_n_components)
    (s.X, s.lengths) none]

/-- Witness for C9: the concrete 2-sequence item `sCV2`. -/
theorem claim_cv_few_sequences_no_folds_witness :
    SelectorCV.select envAll sCV2 =
      ((searchFold maxReplaces
          (fun n => SelectorCV.singleEval envAll sCV2.X sCV2.lengths n)
          (SelectorCV.candidates sCV2.min_n_components
            sCV2.max_n_components) none).map Prod.fst,
        (sCV2.X, sCV2.lengths)) :=
  claim_cv_few_sequences_no_folds envAll sCV2 (by decide)

/-- Counterexample for C1: on the concrete item `sCV3` (3 sequences, fold
path, candidate range `{2, 3}`) with every fold score equal, both
candidates obtain the identical mean fold score `0`, yet `select()` returns
the model of the earlier-evaluated candidate `n = 2`, not the later
`n = 3`: Python's `max(best_model, curr, key=...)` keeps its first argument
on ties, so replacement is first-wins, contrary to the claim's last-wins. -/
theorem claim_cv_tie_cex :
    (SelectorCV.select envAll sCV3).1 = some 2 ∧
      (some 2 : Option ℕ) ≠ some 3 :=
  ⟨by with_unfolding_all rfl, by decide⟩

/-- C1 (amended): for the Cross-Validated selector, when two candidates
`n1 < n2` inside the closed search range produce identical scores and every
other candidate in range fails, `select()` returns the earlier-evaluated
(lower-n) candidate `n1`: `max(best_model, curr, key=...)` replaces the
running best only on strict improvement, the same first-wins tie policy as
BIC/DIC. -/
theorem claim_cv_tie_keeps_first {Model : Type} (env : Env Model)
    (s : ModelSelector) (n1 n2 : ℕ) (m1 m2 : Model) (c : ℚ)
    (hlo : s.min_n_components ≤ n1) (h12 : n1 < n2)
    (hhi : n2 ≤ s.max_n_components)
    (he1 : ∀ st : XType × List ℕ,
      (SelectorCV.evalCandidate env s.sequences st n1).2 = some (m1, c))
    (he2 : ∀ st : XType × List ℕ,
      (SelectorCV.evalCandidate env s.sequences st n2).2 = some (m2, c))
    (hother : ∀ n, s.min_n_components ≤ n → n ≤ s.max_n_components →
      n ≠ n1 → n ≠ n2 → ∀ st : XType × List ℕ,
        (SelectorCV.evalCandidate env s.sequences st n).2 = none) :
    (SelectorCV.select env s).1 = some m1 := by
  have hpin : ∀ n ∈ SelectorCV.candidates s.min_n_components
      s.max_n_components, ∀ st : XType × List ℕ,
      (SelectorCV.evalCandidate env s.sequences st n).2 =
        (if n = n1 then some (m1, c) else if n = n2 then some (m2, c)
          else none) := by
    intro n hn st
    have hmem := mem_cv_candidates.mp hn
    by_cases e1 : n = n1
    · rw [if_pos e1, e1]
      exact he1 st
    · rw [if_neg e1]
      by_cases e2 : n = n2
      · rw [if_pos e2, e2]
        exact he2 st
      · rw [if_neg e2]
        exact hother n hmem.1 hmem.2 e1 e2 st
  have hb := cv_foldl_snd_pinned env s.sequences
    (fun n => if n = n1 then some (m1, c) else if n = n2 then some (m2, c)
      else none)
    (SelectorCV.candidates s.min_n_components s.max_n_components)
    (s.X, s.lengths) none hpin
  have hfold : searchFold maxReplaces
      (fun n => if n = n1 then some (m1, c) else if n = n2 then some (m2, c)
        else none)
      (SelectorCV.candidates s.min_n_components s.max_n_components) none =
      some (m1, c) := by
    show searchFold maxReplaces _
      (pyrange s.min_n_components (s.max_n_components + 1)) none = _
    apply searchFold_two_tied maxReplaces
      (fun a => by simp [maxReplaces]) _ _ _ n1 n2 m1 m2 c hlo h12
      (by omega)
    · rw [if_pos rfl]
    · rw [if_neg (by omega : n2 ≠ n1), if_pos rfl]
    · intro n ha hbn e1 e2
      rw [if_neg e1, if_neg e2]
  show ((SelectorCV.candidates s.min_n_components
      s.max_n_components).foldl (SelectorCV.step env s.sequences)
      ((s.X, s.lengths), none)).2.map Prod.fst = some m1
  rw [hb, hfold]
  rfl

/-- Witness for the amended C1: on the 2-sequence item `sCV2` (so the
candidate evaluation is state-independent) both candidates 2 and 3 score
`0`; the selector returns the lower-n model `2`. -/
theorem claim_cv_tie_keeps_first_witness :
    (SelectorCV.select envAll sCV2).1 = some 2 :=
  claim_cv_tie_keeps_first envAll sCV2 2 3 2 3 0 (by decide) (by decide)
    (by decide) (fun st => rfl) (fun st => rfl)
    (fun n h1 h2 h3 h4 => by
      exfalso
      have e1 : 2 ≤ n := h1
      have e2 : n ≤ 3 := h2
      omega)

/-- C7: for the BIC and the DIC selector, a later candidate replaces the
running best only on strict improvement (`best_model[1] > score` resp.
`best_model[1] < score`), so when two candidates achieve identical scores
(and every other candidate in the half-open range fails) `select()` returns
the first-encountered, lowest-n candidate. -/
theorem claim_bic_dic_tie_keeps_first :
    (∀ (Model : Type) (env : Env Model) (s : ModelSelector) (n1 n2 : ℕ)
      (m1 m2 : Model) (c : ℚ),
      s.min_n_components ≤ n1 → n1 < n2 → n2 < s.max_n_components →
      SelectorBIC.evalCandidate env s n1 = some (m1, c) →
      SelectorBIC.evalCandidate env s n2 = some (m2, c) →
      (∀ n, s.min_n_components ≤ n → n < s.max_n_components → n ≠ n1 →
        n ≠ n2 → SelectorBIC.evalCandidate env s n = none) →
      SelectorBIC.select env s = some m1) ∧
    (∀ (Model : Type) (env : Env Model) (s : ModelSelector) (n1 n2 : ℕ)
      (m1 m2 : Model) (c : ℚ),
      s.min_n_components ≤ n1 → n1 < n2 → n2 < s.max_n_components →
      SelectorDIC.evalCandidate env s n1 = some (m1, c) →
      SelectorDIC.evalCandidate env s n2 = some (m2, c) →
      (∀ n, s.min_n_components ≤ n → n < s.max_n_components → n ≠ n1 →
        n ≠ n2 → SelectorDIC.evalCandidate env s n = none) →
      SelectorDIC.select env s = some m1) := by
  constructor
  · intro Model env s n1 n2 m1 m2 c hlo h12 hhi he1 he2 hother
    unfold SelectorBIC.select SelectorBIC.candidates
    rw [searchFold_two_tied minReplaces (fun a => by simp [minReplaces])
      (SelectorBIC.evalCandidate env s) s.min_n_components
      s.max_n_components n1 n2 m1 m2 c hlo h12 hhi he1 he2 hother]
    rfl
  · intro Model env s n1 n2 m1 m2 c hlo h12 hhi he1 he2 hother
    unfold SelectorDIC.select SelectorDIC.candidates
    rw [searchFold_two_tied maxReplaces (fun a => by simp [maxReplaces])
      (SelectorDIC.evalCandidate env s) s.min_n_components
      s.max_n_components n1 n2 m1 m2 c hlo h12 hhi he1 he2 hother]
    rfl

/-- Witness for C7: on `sRange24` (range `[2, 4)`, so candidates `{2, 3}`)
with every candidate scoring `0`, both BIC and DIC return the lower-n
model `2`. -/
theorem claim_bic_dic_tie_keeps_first_witness :
    SelectorBIC.select envAll sRange24 = some 2 ∧
    SelectorDIC.select envAll sRange24 = some 2 :=
  ⟨claim_bic_dic_tie_keeps_first.1 ℕ envAll sRange24 2 3 2 3 0
      (by decide) (by decide) (by decide) (by with_unfolding_all rfl)
      (by with_unfolding_all rfl)
      (fun n h1 h2 h3 h4 => by
        exfalso
        have e1 : 2 ≤ n := h1
        have e2 : n < 4 := h2
        omega),
   claim_bic_dic_tie_keeps_first.2 ℕ envAll sRange24 2 3 2 3 0
      (by decide) (by decide) (by decide) (by with_unfolding_all rfl)
      (by with_unfolding_all rfl)
      (fun n h1 h2 h3 h4 => by
        exfalso
        have e1 : 2 ≤ n := h1
        have e2 : n < 4 := h2
        omega)⟩

/-- C5: every successfully evaluated BIC candidate with `n` states carries
the score `-2·logL + p·log(numSequences)` with
`p = n² + 2·n·numFeatures − 1`, where `logL` is the model's score on the
item's own full data and `numSequences = len(self.lengths)`; and
`select()` returns a candidate achieving the minimum BIC score among all
successfully evaluated candidates. -/
theorem claim_bic_formula_and_min {Model : Type} (env : Env Model)
    (s : ModelSelector) :
    (∀ (n : ℕ) (m : Model) (sc : ℚ),
      SelectorBIC.evalCandidate env s n = some (m, sc) →
        ∃ logL : ℚ, env.fit n s.X s.lengths = some m ∧
          env.score m s.X s.lengths = some logL ∧
          sc = -2 * logL +
            ((n : ℚ) ^ 2 + 2 * (n : ℚ) * (env.nFeatures m : ℚ) - 1) *
              env.log s.lengths.length) ∧
    (∀ m : Model, SelectorBIC.select env s = some m →
      ∃ n ∈ SelectorBIC.candidates s.min_n_components s.max_n_components,
        ∃ sc : ℚ, SelectorBIC.evalCandidate env s n = some (m, sc) ∧
          ∀ n2 ∈ SelectorBIC.candidates s.min_n_components
            s.max_n_components, ∀ (m2 : Model) (sc2 : ℚ),
            SelectorBIC.evalCandidate env s n2 = some (m2, sc2) →
              sc ≤ sc2) := by
  constructor
  · intro n m sc h
    unfold SelectorBIC.evalCandidate at h
    split at h
    next heq => exact absurd h (Option.noConfusion)
    next m1 heq =>
      split at h
      next heq2 => exact absurd h (Option.noConfusion)
      next logL heq2 =>
        have hm : m1 = m := congrArg Prod.fst (Option.some.inj h)
        subst hm
        refine ⟨logL, heq, heq2, ?_⟩
        have hsc : sc = -2 * logL +
            (((n : ℤ) ^ 2 + 2 * (n : ℤ) * (env.nFeatures m1 : ℤ) - 1 : ℤ) :
              ℚ) * env.log s.lengths.length :=
          (congrArg Prod.snd (Option.some.inj h)).symm
        rw [hsc]
        push_cast
        ring
  · intro m hm
    unfold SelectorBIC.select at hm
    rcases Option.map_eq_some'.mp hm with ⟨p, hp, hpe⟩
    obtain ⟨pm, psc⟩ := p
    have hq : pm = m := hpe
    subst hq
    obtain ⟨⟨n, hn, he⟩, hopt⟩ :=
      searchFold_min (SelectorBIC.evalCandidate env s)
        (SelectorBIC.candidates s.min_n_components s.max_n_components)
        pm psc hp
    exact ⟨n, hn, psc, he,
      fun n2 hn2 m2 sc2 he2 => hopt n2 hn2 (m2, sc2) he2⟩

/-- Witness for C5: on `sCV2` with `envAll`, candidate 2 evaluates to
score 0 and the selector's choice achieves the minimum. -/
theorem claim_bic_formula_and_min_witness :
    (∃ logL : ℚ, envAll.fit 2 sCV2.X sCV2.lengths = some 2 ∧
      envAll.score 2 sCV2.X sCV2.lengths = some logL ∧
      (0 : ℚ) = -2 * logL +
        ((2 : ℚ) ^ 2 + 2 * (2 : ℚ) * (envAll.nFeatures 2 : ℚ) - 1) *
          envAll.log sCV2.lengths.length) ∧
    (∃ n ∈ SelectorBIC.candidates sCV2.min_n_components
        sCV2.max_n_components, ∃ sc : ℚ,
      SelectorBIC.evalCandidate envAll sCV2 n = some (2, sc) ∧
        ∀ n2 ∈ SelectorBIC.candidates sCV2.min_n_components
          sCV2.max_n_components, ∀ (m2 : ℕ) (sc2 : ℚ),
          SelectorBIC.evalCandidate envAll sCV2 n2 = some (m2, sc2) →
            sc ≤ sc2) :=
  ⟨(claim_bic_formula_and_min envAll sCV2).1 2 2 0
      (by with_unfolding_all rfl),
   (claim_bic_formula_and_min envAll sCV2).2 2
      (by with_unfolding_all rfl)⟩

/-- C6: every successfully evaluated DIC candidate with `n` states carries
the score `logL − (1/(M−1))·(sumOverAll − logL)` where `logL` is the
candidate's score on the target's own flattened data, `sumOverAll` is
`SelectorDIC.scoreSum` (the sum of the candidate's score over every
vocabulary item of the corpus, the target included) and
`M = len(self.words)`; and `select()` returns a candidate achieving the
maximum DIC score among all successfully evaluated candidates. -/
theorem claim_dic_formula_and_max {Model : Type} (env : Env Model)
    (s : ModelSelector) :
    (∀ (n : ℕ) (m : Model) (sc : ℚ),
      SelectorDIC.evalCandidate env s n = some (m, sc) →
        ∃ logL logSum : ℚ, env.fit n s.X s.lengths = some m ∧
          env.score m s.X s.lengths = some logL ∧
          SelectorDIC.scoreSum env m s = some logSum ∧
          ((s.words.length : ℚ) - 1) ≠ 0 ∧
          sc = logL - 1 / ((s.words.length : ℚ) - 1) * (logSum - logL)) ∧
    (∀ m : Model, SelectorDIC.select env s = some m →
      ∃ n ∈ SelectorDIC.candidates s.min_n_components s.max_n_components,
        ∃ sc : ℚ, SelectorDIC.evalCandidate env s n = some (m, sc) ∧
          ∀ n2 ∈ SelectorDIC.candidates s.min_n_components
            s.max_n_components, ∀ (m2 : Model) (sc2 : ℚ),
            SelectorDIC.evalCandidate env s n2 = some (m2, sc2) →
              sc2 ≤ sc) := by
  constructor
  · intro n m sc h
    unfold SelectorDIC.evalCandidate at h
    split at h
    next heq => exact absurd h (Option.noConfusion)
    next m1 heq =>
      split at h
      next heq2 => exact absurd h (Option.noConfusion)
      next logL heq2 =>
        split at h
        next heq3 => exact absurd h (Option.noConfusion)
        next logSum heq3 =>
          split at h
          next heq4 => exact absurd h (Option.noConfusion)
          next q heq4 =>
            have hm : m1 = m := congrArg Prod.fst (Option.some.inj h)
            subst hm
            unfold pydiv at heq4
            split at heq4
            next hz => exact absurd heq4 (Option.noConfusion)
            next hz =>
              have hqv : (1 : ℚ) / ((s.words.length : ℚ) - 1) = q :=
                Option.some.inj heq4
              refine ⟨logL, logSum, heq, heq2, heq3, hz, ?_⟩
              have hsc : sc = logL - q * (logSum - logL) :=
                (congrArg Prod.snd (Option.some.inj h)).symm
              rw [hsc, ← hqv]
  · intro m hm
    unfold SelectorDIC.select at hm
    rcases Option.map_eq_some'.mp hm with ⟨p, hp, hpe⟩
    obtain ⟨pm, psc⟩ := p
    have hq : pm = m := hpe
    subst hq
    obtain ⟨⟨n, hn, he⟩, hopt⟩ :=
      searchFold_max (SelectorDIC.evalCandidate env s)
        (SelectorDIC.candidates s.min_n_components s.max_n_components)
        pm psc hp
    exact ⟨n, hn, psc, he,
      fun n2 hn2 m2 sc2 he2 => hopt n2 hn2 (m2, sc2) he2⟩

/-- Witness for C6: on the two-word corpus `sRange24` with `envAll`,
candidate 2 evaluates with `M = 2`, `logL = 0`, `sumOverAll = 0` and the
selector's choice achieves the maximum. -/
theorem claim_dic_formula_and_max_witness :
    (∃ logL logSum : ℚ, envAll.fit 2 sRange24.X sRange24.lengths = some 2 ∧
      envAll.score 2 sRange24.X sRange24.lengths = some logL ∧
      SelectorDIC.scoreSum envAll 2 sRange24 = some logSum ∧
      ((sRange24.words.length : ℚ) - 1) ≠ 0 ∧
      (0 : ℚ) = logL - 1 / ((sRange24.words.length : ℚ) - 1) *
        (logSum - logL)) ∧
    (∃ n ∈ SelectorDIC.candidates sRange24.min_n_components
        sRange24.max_n_components, ∃ sc : ℚ,
      SelectorDIC.evalCandidate envAll sRange24 n = some (2, sc) ∧
        ∀ n2 ∈ SelectorDIC.candidates sRange24.min_n_components
          sRange24.max_n_components, ∀ (m2 : ℕ) (sc2 : ℚ),
          SelectorDIC.evalCandidate envAll sRange24 n2 = some (m2, sc2) →
            sc2 ≤ sc) :=
  ⟨(claim_dic_formula_and_max envAll sRange24).1 2 2 0
      (by with_unfolding_all rfl),
   (claim_dic_formula_and_max envAll sRange24).2 2
      (by with_unfolding_all rfl)⟩

/-- Counterexample for C3: with the fallback count `n_constant = 7`
trainable but outside the configured range `[2, 4]` (within which only 3
is trainable), the Constant selector returns a 7-state model — a model
whose state count lies outside the configured search range — because
`SelectorConstant.select` calls the fitter with `n_constant` and ignores
the range entirely. -/
theorem claim_range_cex :
    SelectorConstant.select envTwoTrainable sConst7 = some 7 ∧
    envTwoTrainable.nComponents 7 = 7 ∧
    sConst7.min_n_components = 2 ∧ sConst7.max_n_components = 4 ∧
    ¬(2 ≤ 7 ∧ 7 ≤ 4) := by
  decide

/-- C3 (amended): assume the fitter stamps the requested state count on
every model it produces and that exactly one state count `n0` inside the
configured closed range `[min_n_components, max_n_components]` is
trainable (fitting any other in-range count fails on any data).  Then BIC,
DIC and CV return either `None` or a model with `n0` states; the Constant
selector does so as well *provided* its fallback count `n_constant` lies
inside the configured range (without that proviso it can return a model
outside the range, see the counterexample). -/
theorem claim_single_trainable_in_range {Model : Type} (env : Env Model)
    (s : ModelSelector) (n0 : ℕ)
    (hcomp : ∀ (n : ℕ) (X : XType) (l : List ℕ) (m : Model),
      env.fit n X l = some m → env.nComponents m = n)
    (_hlo : s.min_n_components ≤ n0) (_hhi : n0 ≤ s.max_n_components)
    (honly : ∀ n, s.min_n_components ≤ n → n ≤ s.max_n_components →
      n ≠ n0 → ∀ (X : XType) (l : List ℕ), env.fit n X l = none)
    (hclo : s.min_n_components ≤ s.n_constant)
    (hchi : s.n_constant ≤ s.max_n_components) :
    (SelectorConstant.select env s = none ∨
      ∃ m, SelectorConstant.select env s = some m ∧
        env.nComponents m = n0) ∧
    (SelectorBIC.select env s = none ∨
      ∃ m, SelectorBIC.select env s = some m ∧ env.nComponents m = n0) ∧
    (SelectorDIC.select env s = none ∨
      ∃ m, SelectorDIC.select env s = some m ∧ env.nComponents m = n0) ∧
    ((SelectorCV.select env s).1 = none ∨
      ∃ m, (SelectorCV.select env s).1 = some m ∧
        env.nComponents m = n0) := by
  refine ⟨?_, ?_, ?_, ?_⟩
  · by_cases hc : s.n_constant = n0
    · cases hf : env.fit s.n_constant s.X s.lengths with
      | none => exact Or.inl hf
      | some m =>
        exact Or.inr ⟨m, hf, by rw [hcomp s.n_constant _ _ m hf, hc]⟩
    · exact Or.inl (honly s.n_constant hclo hchi hc s.X s.lengths)
  · cases hsel : SelectorBIC.select env s with
    | none => exact Or.inl rfl
    | some m =>
      refine Or.inr ⟨m, rfl, ?_⟩
      unfold SelectorBIC.select at hsel
      rcases Option.map_eq_some'.mp hsel with ⟨p, hp, hpe⟩
      obtain ⟨pm, psc⟩ := p
      have hq : pm = m := hpe
      subst hq
      rcases searchFold_origin minReplaces (SelectorBIC.evalCandidate env s)
        (SelectorBIC.candidates s.min_n_components s.max_n_components)
        none (pm, psc) hp with h1 | ⟨n, hn, he⟩
      · exact absurd h1 (Option.noConfusion)
      · have hfit := bic_eval_fit env s n pm psc he
        have hb := mem_bic_candidates.mp hn
        by_cases hne : n = n0
        · rw [← hne]
          exact hcomp n s.X s.lengths pm hfit
        · rw [honly n hb.1 (by omega) hne s.X s.lengths] at hfit
          exact absurd hfit (Option.noConfusion)
  · cases hsel : SelectorDIC.select env s with
    | none => exact Or.inl rfl
    | some m =>
      refine Or.inr ⟨m, rfl, ?_⟩
      unfold SelectorDIC.select at hsel
      rcases Option.map_eq_some'.mp hsel with ⟨p, hp, hpe⟩
      obtain ⟨pm, psc⟩ := p
      have hq : pm = m := hpe
      subst hq
      rcases searchFold_origin maxReplaces (SelectorDIC.evalCandidate env s)
        (SelectorDIC.candidates s.min_n_components s.max_n_components)
        none (pm, psc) hp with h1 | ⟨n, hn, he⟩
      · exact absurd h1 (Option.noConfusion)
      · have hfit := dic_eval_fit env s n pm psc he
        have hb := mem_dic_candidates.mp hn
        by_cases hne : n = n0
        · rw [← hne]
          exact hcomp n s.X s.lengths pm hfit
        · rw [honly n hb.1 (by omega) hne s.X s.lengths] at hfit
          exact absurd hfit (Option.noConfusion)
  · cases hsel : (SelectorCV.select env s).1 with
    | none => exact Or.inl rfl
    | some m =>
      refine Or.inr ⟨m, rfl, ?_⟩
      have hsel2 : ((SelectorCV.candidates s.min_n_components
          s.max_n_components).foldl (SelectorCV.step env s.sequences)
          ((s.X, s.lengths), none)).2.map Prod.fst = some m := hsel
      rcases Option.map_eq_some'.mp hsel2 with ⟨p, hp, hpe⟩
      obtain ⟨pm, psc⟩ := p
      have hq : pm = m := hpe
      subst hq
      rcases cv_foldl_origin env s.sequences
        (SelectorCV.candidates s.min_n_components s.max_n_components)
        (s.X, s.lengths) none (pm, psc) hp with h1 | ⟨n, hn, st, he⟩
      · exact absurd h1 (Option.noConfusion)
      · obtain ⟨X, l, hfit⟩ :=
          evalCandidate_model_origin env s.sequences st n pm psc he
        have hb := mem_cv_candidates.mp hn
        by_cases hne : n = n0
        · rw [← hne]
          exact hcomp n X l pm hfit
        · rw [honly n hb.1 hb.2 hne X l] at hfit
          exact absurd hfit (Option.noConfusion)

/-- Witness for the amended C3: under `envTwoTrainable` only `n0 = 3` is
trainable inside the range `[2, 4]` of `sRange24`, whose `n_constant = 3`
is in range; all four strategies return `None` or a 3-state model. -/
theorem claim_single_trainable_in_range_witness :
    (SelectorConstant.select envTwoTrainable sRange24 = none ∨
      ∃ m, SelectorConstant.select envTwoTrainable sRange24 = some m ∧
        envTwoTrainable.nComponents m = 3) ∧
    (SelectorBIC.select envTwoTrainable sRange24 = none ∨
      ∃ m, SelectorBIC.select envTwoTrainable sRange24 = some m ∧
        envTwoTrainable.nComponents m = 3) ∧
    (SelectorDIC.select envTwoTrainable sRange24 = none ∨
      ∃ m, SelectorDIC.select envTwoTrainable sRange24 = some m ∧
        envTwoTrainable.nComponents m = 3) ∧
    ((SelectorCV.select envTwoTrainable sRange24).1 = none ∨
      ∃ m, (SelectorCV.select envTwoTrainable sRange24).1 = some m ∧
        envTwoTrainable.nComponents m = 3) :=
  claim_single_trainable_in_range envTwoTrainable sRange24 3
    (fun n X l m h => by
      have h2 : (if n = 3 ∨ n = 7 then (some n : Option ℕ) else none) =
          some m := h
      show m = n
      split at h2
      next => exact (Option.some.inj h2).symm
      next => exact absurd h2 (Option.noConfusion))
    (by decide) (by decide)
    (fun n h1 h2 h3 X l => by
      have e1 : 2 ≤ n := h1
      have e2 : n ≤ 4 := h2
      show (if n = 3 ∨ n = 7 then (some n : Option ℕ) else none) = none
      rw [if_neg]
      rintro (rfl | rfl)
      · exact h3 rfl
      · omega)
    (by decide) (by decide)

/-- C10: after `SelectorCV.select` returns on an item with more than 2
sequences, the instance fields `X`/`lengths` (the second component of the
embedded result) are, in general, either untouched or the train-fold
concatenation of one of the splitter's folds; and in a failure-free run
(every fit and score succeeds, nonempty fold list, nonempty candidate
list) they equal the concatenation of the *last* fold's training indices —
and hence differ from the original flattened corpus entry whenever that
concatenation differs from it.  The per-fold rebinding is never restored. -/
theorem claim_cv_state_mutation {Model : Type} (env : Env Model)
    (s : ModelSelector) (hseq : 2 < s.sequences.length) :
    ((SelectorCV.select env s).2 = (s.X, s.lengths) ∨
      ∃ f ∈ env.split s.sequences,
        (SelectorCV.select env s).2 = combine_sequences f.1 s.sequences) ∧
    ((∀ (k : ℕ) (X : XType) (l : List ℕ), env.fit k X l ≠ none) →
      (∀ (m : Model) (X : XType) (l : List ℕ), env.score m X l ≠ none) →
      ∀ hne : env.split s.sequences ≠ [],
        SelectorCV.candidates s.min_n_components s.max_n_components ≠
            [] →
          (SelectorCV.select env s).2 =
            combine_sequences ((env.split s.sequences).getLast hne).1
              s.sequences ∧
          ((s.X, s.lengths) ≠
              combine_sequences ((env.split s.sequences).getLast hne).1
                s.sequences →
            (SelectorCV.select env s).2 ≠ (s.X, s.lengths))) := by
  have hsel2 : (SelectorCV.select env s).2 =
      ((SelectorCV.candidates s.min_n_components s.max_n_components).foldl
        (SelectorCV.step env s.sequences) ((s.X, s.lengths), none)).1 :=
    rfl
  constructor
  · rw [hsel2]
    exact cv_foldl_fst_mem env s.sequences hseq
      (SelectorCV.candidates s.min_n_components s.max_n_components)
      (s.X, s.lengths) none
  · intro hfit hscore hne hcne
    have hC : ∀ (st : XType × List ℕ) (n : ℕ),
        (SelectorCV.evalCandidate env s.sequences st n).1 =
          combine_sequences ((env.split s.sequences).getLast hne).1
            s.sequences := by
      intro st n
      rw [evalCandidate_fst_of_gt env s.sequences hseq st n]
      exact foldLoop_fst_success env s.sequences n hfit hscore
        (env.split s.sequences) st [] none hne
    have hmain : (SelectorCV.select env s).2 =
        combine_sequences ((env.split s.sequences).getLast hne).1
          s.sequences := by
      rw [hsel2]
      exact cv_foldl_fst_of_const env s.sequences _ hC
        (SelectorCV.candidates s.min_n_components s.max_n_components)
        (s.X, s.lengths) none hcne
    refine ⟨hmain, fun hdiff => ?_⟩
    rw [hmain]
    intro hcontra
    exact hdiff hcontra.symm

/-- Witness for C10: on the 3-sequence item `sCV3` under `envAll` (no
failures), the final `X`/`lengths` state is the concatenation of the last
fold's train indices `[0, 1]` — two segments — and differs from the
original three-segment flattened entry. -/
theorem claim_cv_state_mutation_witness :
    (SelectorCV.select envAll sCV3).2 =
      combine_sequences [0, 1] sCV3.sequences ∧
    (SelectorCV.select envAll sCV3).2 ≠ (sCV3.X, sCV3.lengths) := by
  have h := (claim_cv_state_mutation envAll sCV3 (by decide)).2
    (fun k X l => by simp [envAll]) (fun m X l => by simp [envAll])
    (by decide) (by decide)
  constructor
  · rw [h.1]
    with_unfolding_all rfl
  · rw [h.1]
    intro hcontra
    exact absurd
      (congrArg (fun q : XType × List ℕ => q.2.length) hcontra) (by decide)
